import Mathlib

/-!
Verification of `Lean.Meta.unifyEq?` (module `Lean.Meta.Tactic.UnifyEq`,
shipped in this repository as the compiled listing
`src/stage0/stdlib/Lean/Meta/Tactic/UnifyEq.c`).

The development shallowly embeds the algorithmic core of that module:

* `heqToEq'`   — the heterogeneous-to-homogeneous converter
  (`l___private_Lean_Meta_Tactic_UnifyEq_0__Lean_Meta_heqToEq_x27`);
* `unifyEq?.substEq` — the direct substituter (`l_Lean_Meta_unifyEq_x3f_substEq`);
* `unifyEq?.injection` — the constructor injector
  (`l_Lean_Meta_unifyEq_x3f_injection` together with its two lambdas);
* `unifyEq?`   — the top-level dispatcher
  (`l_Lean_Meta_unifyEq_x3f` / `l_Lean_Meta_unifyEq_x3f___lambda__1`).

External collaborators (the term oracle `whnf`/`isDefEq`/`inferType`/…, the
context accessor `assert`/`clear`/`substCore`/`getLocalDecl`, and the
injection primitive `injectionCore`) are not part of the listing; they are
modelled from the spec, either as fields of an `Oracle` record that the
embedded functions consume, or as concrete context operations.  Tracing is
omitted: the listing consults the `Meta.debug` option and emits a message,
which never affects the returned value.
-/

namespace UnifyEqSpec

/-- Term tree.  The listing inspects expressions only through
`lean_expr_eqv` (structural equality), the free-variable constructor test
(`lean_obj_tag == 1`), `Expr.appFn!`/`Expr.appArg!`, `Expr.isHEq` and
`Expr.isAppOfArity`; the model keeps exactly the constructors those
operations distinguish. -/
inductive Expr where
  | bvar (i : Nat)
  | fvar (id : Nat)
  | const (name : String)
  | app (f a : Expr)
  | lit (n : Nat)
deriving DecidableEq

namespace Expr

/-- Total model of `Expr.appFn!`; in the listing it is only applied to
applications (guarded by `isAppOfArity`). -/
def appFn : Expr → Expr
  | .app f _ => f
  | e => e

/-- Total model of `Expr.appArg!`; same proviso as `appFn`. -/
def appArg : Expr → Expr
  | .app _ a => a
  | e => e

/-- Model of `Expr.isAppOfArity`: the head must be the given constant and
the application spine must have exactly the given length. -/
def isAppOfArity : Expr → String → Nat → Bool
  | .app f _, n, k + 1 => f.isAppOfArity n k
  | .const c, n, 0 => c == n
  | _, _, _ => false

/-- Model of `Expr.isHEq` (`HEq` applied to exactly four arguments). -/
def isHEq (e : Expr) : Bool := e.isAppOfArity "HEq" 4

/-- Free-variable test used by the dispatcher's `match` on the two sides
(tag 1 in the listing). -/
def fvarId? : Expr → Option Nat
  | .fvar x => some x
  | _ => none

/-- Occurrence test for a free variable, used by the modelled
substitution primitive. -/
def hasFVarId : Expr → Nat → Bool
  | .fvar y, x => x == y
  | .app f a, x => f.hasFVarId x || a.hasFVarId x
  | _, _ => false

/-- Capture-free replacement of a free variable, used by the modelled
substitution primitive. -/
def replaceFVarId : Expr → Nat → Expr → Expr
  | .fvar y, x, v => if x == y then v else .fvar y
  | .app f a, x, v => .app (f.replaceFVarId x v) (a.replaceFVarId x v)
  | e, _, _ => e

end Expr

/-- The homogeneous equality proposition `Eq α a b` as an application
spine. -/
def mkEqE (ty a b : Expr) : Expr :=
  .app (.app (.app (.const "Eq") ty) a) b

/-- The heterogeneous equality proposition `HEq α a β b` as an application
spine. -/
def mkHEqE (ty1 a ty2 b : Expr) : Expr :=
  .app (.app (.app (.app (.const "HEq") ty1) a) ty2) b

/-- Modelled from the spec: `getLocalDecl(id) -> {name, type, index}`.
A local declaration with its user-facing name, type and declaration
index. -/
structure LocalDecl where
  fvarId : Nat
  userName : String
  type : Expr
  index : Nat

/-- Modelled from the spec: the ordered local context.  `fresh` feeds both
the variable id and the declaration index of the next asserted
hypothesis, so indices reflect introduction order. -/
structure LocalContext where
  decls : List LocalDecl
  fresh : Nat

namespace LocalContext

/-- Modelled from the spec: declaration lookup by variable id
(`getLocalDecl`); absence is an error in the listing. -/
def find (lctx : LocalContext) (id : Nat) : Option LocalDecl :=
  lctx.decls.find? (fun d => d.fvarId == id)

/-- Modelled from the spec: `assertHypothesis(name, type, proof) -> id`
(`Lean.Meta.assert`).  Appends a fresh declaration; the proof term does
not enter the stored context. -/
def assertHyp (lctx : LocalContext) (userName : String) (type : Expr) (_prf : Expr) :
    LocalContext × Nat :=
  ({ decls := lctx.decls ++ [{ fvarId := lctx.fresh, userName := userName, type := type,
                               index := lctx.fresh }],
     fresh := lctx.fresh + 1 }, lctx.fresh)

/-- Modelled from the spec: `clearHypothesis(id)` (`Lean.Meta.clear`);
fails when the declaration is absent. -/
def clear (lctx : LocalContext) (id : Nat) : Option LocalContext :=
  if lctx.decls.any (fun d => d.fvarId == id) then
    some { lctx with decls := lctx.decls.filter (fun d => d.fvarId != id) }
  else none

end LocalContext

/-- The accumulated variable substitution (`FVarSubst`), opaque to this
core: the listing only threads it through and extends it via
`substCore`. -/
def Subst := List (Nat × Expr)

/-- Modelled from the spec: the external substitution primitive
`substituteVariable` (`Lean.Meta.substCore` called with `clearH := true`,
`tryToSkip := false`).  With hypothesis `h : a = b`, the flag `symm`
selects the side to eliminate (`true` eliminates `b`, `false` eliminates
`a`); the attempt fails — without touching the context — unless that side
is a plain free variable, the equation is not of the form `x = x`, and
the replacement does not mention the eliminated variable.  On success the
hypothesis and the eliminated variable are removed and the replacement is
applied to the remaining declarations. -/
def substCore (lctx : LocalContext) (h : Nat) (symm : Bool) (subst : Subst) :
    Option (Subst × LocalContext) :=
  match lctx.find h with
  | none => none
  | some d =>
    if d.type.isAppOfArity "Eq" 3 then
      let a := d.type.appFn.appArg
      let b := d.type.appArg
      let tgt := if symm then b else a
      let repl := if symm then a else b
      match tgt with
      | .fvar x =>
        if a == b then none
        else if repl.hasFVarId x then none
        else
          match lctx.clear h with
          | none => none
          | some lctx1 =>
            match lctx1.clear x with
            | none => none
            | some lctx2 =>
              some ((x, repl) :: subst,
                    { lctx2 with
                      decls := lctx2.decls.map
                        (fun dd => { dd with type := Expr.replaceFVarId dd.type x repl }) })
      | _ => none
    else none

/-- Errors of the embedded core.  `failedToSolve` and `equalityExpected`
carry the hypothesis type that the listing pretty-prints into the
message; `oracleFail` stands for a propagated failure of the named
external call. -/
inductive MetaErr where
  | equalityExpected (type : Expr)
  | failedToSolve (type : Expr) (caseName : Option String)
  | unknownFVar (id : Nat)
  | oracleFail (op : String)

/-- The external term oracle and the injection primitive (spec §6),
consumed by the embedded functions.  Fallible calls return `none` on
failure, which the core propagates as `MetaErr.oracleFail`. -/
structure Oracle where
  instantiateMVars : Expr → Expr
  whnf : Expr → Option Expr
  isDefEq : Expr → Expr → Option Bool
  isConstructorApp : Expr → Bool
  inferType : Expr → Option Expr
  mkEqOfHEq : Expr → Option Expr
  mkEq : Expr → Expr → Option Expr
  injectionCore : LocalContext → Nat → Option (Option (LocalContext × Nat))

/-- `Lean.Meta.UnifyEqResult`: the goal's context after the step, the
extended substitution, and the number of fresh unresolved equations. -/
structure UnifyEqResult where
  lctx : LocalContext
  subst : Subst
  numNewEqs : Nat

/-- Default of the `numNewEqs` field
(`l_Lean_Meta_UnifyEqResult_numNewEqs___default`). -/
def UnifyEqResult.numNewEqsDefault : Nat := 0


/-- Converter, translated from `heqToEq_x27`: build the homogeneous proof
with `mkEqOfHEq` on the hypothesis variable, infer and weak-head-reduce
its type, assert it under the original user name, then clear the original
hypothesis. -/
def heqToEq' (o : Oracle) (lctx : LocalContext) (eqDecl : LocalDecl) :
    Except MetaErr LocalContext :=
  match o.mkEqOfHEq (.fvar eqDecl.fvarId) with
  | none => .error (.oracleFail "mkEqOfHEq")
  | some prf =>
    match o.inferType prf with
    | none => .error (.oracleFail "inferType")
    | some ty =>
      match o.whnf ty with
      | none => .error (.oracleFail "whnf")
      | some ty' =>
        let asserted := lctx.assertHyp eqDecl.userName ty' prf
        match asserted.1.clear eqDecl.fvarId with
        | none => .error (.oracleFail "clear")
        | some lctx' => .ok lctx'

/-- Direct substituter, translated from `unifyEq_x3f_substEq`: try
`substCore` speculatively (`observing?`); on failure fall back to a
definitional-equality check that merely clears the hypothesis; if that is
also rejected consult the caller-provided `acyclic` check, and only when
all three decline raise the fatal "failed to solve equation" error
carrying the hypothesis type. -/
def unifyEq?.substEq (o : Oracle) (acycl : LocalContext → Expr → Option Bool)
    (lctx : LocalContext) (eqFVarId : Nat) (subst : Subst) (eqDecl : LocalDecl)
    (a b : Expr) (symm : Bool) : Except MetaErr (Option UnifyEqResult) :=
  match substCore lctx eqFVarId symm subst with
  | some (subst', lctx') => .ok (some { lctx := lctx', subst := subst', numNewEqs := 0 })
  | none =>
    match o.isDefEq a b with
    | none => .error (.oracleFail "isDefEq")
    | some true =>
      match lctx.clear eqFVarId with
      | none => .error (.oracleFail "clear")
      | some lctx' => .ok (some { lctx := lctx', subst := subst, numNewEqs := 0 })
    | some false =>
      match acycl lctx (.fvar eqFVarId) with
      | none => .error (.oracleFail "acyclic")
      | some true => .ok none
      | some false => .error (.failedToSolve eqDecl.type none)

/-- Constructor injector, translated from `unifyEq_x3f_injection` and its
two lambdas: when both sides are constructor applications delegate to the
external `injectionCore` primitive (`none` result means the goal was
closed, a subgoal carries the new context and the equation count);
otherwise weak-head-reduce both sides, and if at least one side changed,
assert the reduced equation under the original user name — proved by the
original hypothesis variable — clear the original, and report one new
equation; if nothing changed raise the fatal "failed to solve equation"
error, with the case name appended when present. -/
def unifyEq?.injection (o : Oracle) (lctx : LocalContext) (eqFVarId : Nat)
    (subst : Subst) (caseName? : Option String) (eqDecl : LocalDecl) (a b : Expr) :
    Except MetaErr (Option UnifyEqResult) :=
  if o.isConstructorApp a && o.isConstructorApp b then
    match o.injectionCore lctx eqFVarId with
    | none => .error (.oracleFail "injectionCore")
    | some none => .ok none
    | some (some (lctx', n)) => .ok (some { lctx := lctx', subst := subst, numNewEqs := n })
  else
    match o.whnf a with
    | none => .error (.oracleFail "whnf")
    | some a' =>
      match o.whnf b with
      | none => .error (.oracleFail "whnf")
      | some b' =>
        if a' == a && b' == b then
          .error (.failedToSolve eqDecl.type caseName?)
        else
          match o.mkEq a' b' with
          | none => .error (.oracleFail "mkEq")
          | some ty =>
            let asserted := lctx.assertHyp eqDecl.userName ty (.fvar eqFVarId)
            match asserted.1.clear eqFVarId with
            | none => .error (.oracleFail "clear")
            | some lctx2 =>
              .ok (some { lctx := lctx2, subst := subst, numNewEqs := 1 })

/-- Dispatcher, translated from `unifyEq_x3f___lambda__1`: look up the
hypothesis; a heterogeneous equality goes through the converter and
returns immediately with one new equation; a homogeneous equality is
routed on the metavariable-instantiated sides — two free variables pick
the substitution direction by declaration-index comparison, a single free
variable fixes the direction by its side, and otherwise a positive
definitional-equality check clears the hypothesis while a negative one
delegates to the injector; anything else is the fatal "equality expected"
error carrying the hypothesis type. -/
def unifyEq? (o : Oracle) (acycl : LocalContext → Expr → Option Bool)
    (lctx : LocalContext) (eqFVarId : Nat) (subst : Subst) (caseName? : Option String) :
    Except MetaErr (Option UnifyEqResult) :=
  match lctx.find eqFVarId with
  | none => .error (.unknownFVar eqFVarId)
  | some eqDecl =>
    if eqDecl.type.isHEq then
      match heqToEq' o lctx eqDecl with
      | .error e => .error e
      | .ok lctx' => .ok (some { lctx := lctx', subst := subst, numNewEqs := 1 })
    else if eqDecl.type.isAppOfArity "Eq" 3 then
      let a := eqDecl.type.appFn.appArg
      let b := eqDecl.type.appArg
      let aI := o.instantiateMVars a
      let bI := o.instantiateMVars b
      match aI.fvarId?, bI.fvarId? with
      | some x, some y =>
        match lctx.find x with
        | none => .error (.unknownFVar x)
        | some aDecl =>
          match lctx.find y with
          | none => .error (.unknownFVar y)
          | some bDecl =>
            unifyEq?.substEq o acycl lctx eqFVarId subst eqDecl a b
              (decide (aDecl.index < bDecl.index))
      | some _, none => unifyEq?.substEq o acycl lctx eqFVarId subst eqDecl a b false
      | none, some _ => unifyEq?.substEq o acycl lctx eqFVarId subst eqDecl a b true
      | none, none =>
        match o.isDefEq aI bI with
        | none => .error (.oracleFail "isDefEq")
        | some true =>
          match lctx.clear eqFVarId with
          | none => .error (.oracleFail "clear")
          | some lctx' => .ok (some { lctx := lctx', subst := subst, numNewEqs := 0 })
        | some false => unifyEq?.injection o lctx eqFVarId subst caseName? eqDecl aI bI
    else .error (.equalityExpected eqDecl.type)

/-- Context well-formedness fragment used by the dispatcher: when a side
is a free variable its declaration must be present (otherwise the
listing's `getLocalDecl` raises an unknown-variable error). -/
def fvarDeclared (lctx : LocalContext) : Expr → Bool
  | .fvar x => (lctx.find x).isSome
  | _ => true

/-! ### Concrete fixtures used by witnesses and counterexamples -/

/-- A base type constant. -/
def tyA : Expr := .const "A"

/-- The default acyclicity callback of `unifyEq?`: always declines
(`fun _ _ => return false` in the source signature). -/
def acyclF : LocalContext → Expr → Option Bool := fun _ _ => some false

/-- A plain oracle: no metavariables, weak-head normal forms are fixed
points, definitional equality is structural equality, nothing is a
constructor application, and the remaining calls fail. -/
def baseOracle : Oracle where
  instantiateMVars := fun e => e
  whnf := fun e => some e
  isDefEq := fun a b => some (a == b)
  isConstructorApp := fun _ => false
  inferType := fun _ => none
  mkEqOfHEq := fun _ => none
  mkEq := fun _ _ => none
  injectionCore := fun _ _ => none

end UnifyEqSpec

namespace UnifyEqSpec

/-! ### Helper lemmas about the modelled context accessor -/

theorem LocalContext.find_fvarId {lctx : LocalContext} {id : Nat} {d : LocalDecl}
    (h : lctx.find id = some d) : d.fvarId = id := by
  have h2 := List.find?_some h
  simpa using h2

theorem LocalContext.mem_of_find {lctx : LocalContext} {id : Nat} {d : LocalDecl}
    (h : lctx.find id = some d) : d ∈ lctx.decls :=
  List.mem_of_find?_eq_some h

theorem LocalContext.clear_of_mem {lctx : LocalContext} {id : Nat} {d : LocalDecl}
    (hmem : d ∈ lctx.decls) (hid : d.fvarId = id) :
    lctx.clear id =
      some { lctx with decls := lctx.decls.filter (fun dd => dd.fvarId != id) } := by
  unfold LocalContext.clear
  rw [if_pos]
  exact List.any_eq_true.mpr ⟨d, hmem, by simp [hid]⟩

theorem LocalContext.clear_of_find {lctx : LocalContext} {id : Nat} {d : LocalDecl}
    (h : lctx.find id = some d) :
    lctx.clear id =
      some { lctx with decls := lctx.decls.filter (fun dd => dd.fvarId != id) } :=
  LocalContext.clear_of_mem (LocalContext.mem_of_find h) (LocalContext.find_fvarId h)

theorem length_filter_ne_of_countP {l : List LocalDecl} {id : Nat}
    (hc : l.countP (fun dd => dd.fvarId == id) = 1) :
    (l.filter (fun dd => dd.fvarId != id)).length + 1 = l.length := by
  have h1 := List.length_eq_countP_add_countP (fun dd : LocalDecl => dd.fvarId == id) l
  have h2 : (l.filter (fun dd => dd.fvarId != id)).length
      = l.countP (fun a => decide ¬((a.fvarId == id) = true)) := by
    rw [List.countP_eq_length_filter]
    congr 1
    apply List.filter_congr
    intro a _
    simp [bne, beq_eq_decide]
  rw [h2]
  omega

theorem mkEqE_isHEq (ty a b : Expr) : (mkEqE ty a b).isHEq = false := by
  simp [mkEqE, Expr.isHEq, Expr.isAppOfArity]

theorem mkEqE_isEq3 (ty a b : Expr) : (mkEqE ty a b).isAppOfArity "Eq" 3 = true := by
  simp [mkEqE, Expr.isAppOfArity]

theorem mkEqE_lhs (ty a b : Expr) : (mkEqE ty a b).appFn.appArg = a := rfl

theorem mkEqE_rhs (ty a b : Expr) : (mkEqE ty a b).appArg = b := rfl

/-! ### Route lemmas for the dispatcher (shared helpers) -/

theorem unifyEq_route_fvar_fvar (o : Oracle) (acycl : LocalContext → Expr → Option Bool)
    (lctx : LocalContext) (h : Nat) (subst : Subst) (c : Option String)
    (d dx dy : LocalDecl) (x y : Nat)
    (hfind : lctx.find h = some d)
    (hheq : d.type.isHEq = false)
    (heq3 : d.type.isAppOfArity "Eq" 3 = true)
    (hA : (o.instantiateMVars d.type.appFn.appArg).fvarId? = some x)
    (hB : (o.instantiateMVars d.type.appArg).fvarId? = some y)
    (hfx : lctx.find x = some dx)
    (hfy : lctx.find y = some dy) :
    unifyEq? o acycl lctx h subst c =
      unifyEq?.substEq o acycl lctx h subst d d.type.appFn.appArg d.type.appArg
        (decide (dx.index < dy.index)) := by
  unfold unifyEq?
  rw [hfind]
  simp only [hheq, heq3, Bool.false_eq_true, if_false, if_true, hA, hB, hfx, hfy]

theorem unifyEq_route_fvar_left (o : Oracle) (acycl : LocalContext → Expr → Option Bool)
    (lctx : LocalContext) (h : Nat) (subst : Subst) (c : Option String)
    (d : LocalDecl) (x : Nat)
    (hfind : lctx.find h = some d)
    (hheq : d.type.isHEq = false)
    (heq3 : d.type.isAppOfArity "Eq" 3 = true)
    (hA : (o.instantiateMVars d.type.appFn.appArg).fvarId? = some x)
    (hB : (o.instantiateMVars d.type.appArg).fvarId? = none) :
    unifyEq? o acycl lctx h subst c =
      unifyEq?.substEq o acycl lctx h subst d d.type.appFn.appArg d.type.appArg false := by
  unfold unifyEq?
  rw [hfind]
  simp only [hheq, heq3, Bool.false_eq_true, if_false, if_true, hA, hB]

theorem unifyEq_route_fvar_right (o : Oracle) (acycl : LocalContext → Expr → Option Bool)
    (lctx : LocalContext) (h : Nat) (subst : Subst) (c : Option String)
    (d : LocalDecl) (y : Nat)
    (hfind : lctx.find h = some d)
    (hheq : d.type.isHEq = false)
    (heq3 : d.type.isAppOfArity "Eq" 3 = true)
    (hA : (o.instantiateMVars d.type.appFn.appArg).fvarId? = none)
    (hB : (o.instantiateMVars d.type.appArg).fvarId? = some y) :
    unifyEq? o acycl lctx h subst c =
      unifyEq?.substEq o acycl lctx h subst d d.type.appFn.appArg d.type.appArg true := by
  unfold unifyEq?
  rw [hfind]
  simp only [hheq, heq3, Bool.false_eq_true, if_false, if_true, hA, hB]

theorem unifyEq_route_defeq_clears (o : Oracle) (acycl : LocalContext → Expr → Option Bool)
    (lctx lctx' : LocalContext) (h : Nat) (subst : Subst) (c : Option String)
    (d : LocalDecl)
    (hfind : lctx.find h = some d)
    (hheq : d.type.isHEq = false)
    (heq3 : d.type.isAppOfArity "Eq" 3 = true)
    (hA : (o.instantiateMVars d.type.appFn.appArg).fvarId? = none)
    (hB : (o.instantiateMVars d.type.appArg).fvarId? = none)
    (hdefeq : o.isDefEq (o.instantiateMVars d.type.appFn.appArg)
        (o.instantiateMVars d.type.appArg) = some true)
    (hclear : lctx.clear h = some lctx') :
    unifyEq? o acycl lctx h subst c =
      .ok (some { lctx := lctx', subst := subst, numNewEqs := 0 }) := by
  unfold unifyEq?
  rw [hfind]
  simp only [hheq, heq3, Bool.false_eq_true, if_false, if_true, hA, hB, hdefeq, hclear]

theorem unifyEq_route_injection (o : Oracle) (acycl : LocalContext → Expr → Option Bool)
    (lctx : LocalContext) (h : Nat) (subst : Subst) (c : Option String)
    (d : LocalDecl)
    (hfind : lctx.find h = some d)
    (hheq : d.type.isHEq = false)
    (heq3 : d.type.isAppOfArity "Eq" 3 = true)
    (hA : (o.instantiateMVars d.type.appFn.appArg).fvarId? = none)
    (hB : (o.instantiateMVars d.type.appArg).fvarId? = none)
    (hdefeq : o.isDefEq (o.instantiateMVars d.type.appFn.appArg)
        (o.instantiateMVars d.type.appArg) = some false) :
    unifyEq? o acycl lctx h subst c =
      unifyEq?.injection o lctx h subst c d (o.instantiateMVars d.type.appFn.appArg)
        (o.instantiateMVars d.type.appArg) := by
  unfold unifyEq?
  rw [hfind]
  simp only [hheq, heq3, Bool.false_eq_true, if_false, if_true, hA, hB, hdefeq]

theorem unifyEq_route_heq (o : Oracle) (acycl : LocalContext → Expr → Option Bool)
    (lctx : LocalContext) (h : Nat) (subst : Subst) (c : Option String)
    (d : LocalDecl)
    (hfind : lctx.find h = some d)
    (hheq : d.type.isHEq = true) :
    unifyEq? o acycl lctx h subst c =
      (heqToEq' o lctx d).map
        (fun lctx' => some { lctx := lctx', subst := subst, numNewEqs := 1 }) := by
  unfold unifyEq?
  rw [hfind]
  simp only [hheq, if_true]
  cases heqToEq' o lctx d <;> rfl

theorem substCore_identical (lctx : LocalContext) (h : Nat) (symm : Bool) (subst : Subst)
    (d : LocalDecl) (ty a : Expr)
    (hfind : lctx.find h = some d)
    (hty : d.type = mkEqE ty a a) :
    substCore lctx h symm subst = none := by
  unfold substCore
  rw [hfind]
  cases symm <;> cases a <;>
    simp [hty, mkEqE_isEq3, mkEqE_lhs, mkEqE_rhs, mkEqE, Expr.appFn, Expr.appArg,
      Expr.isAppOfArity]

theorem substEq_none_defeq_clears (o : Oracle) (acycl : LocalContext → Expr → Option Bool)
    (lctx lctx' : LocalContext) (h : Nat) (subst : Subst) (d : LocalDecl)
    (a b : Expr) (symm : Bool)
    (hsub : substCore lctx h symm subst = none)
    (hdefeq : o.isDefEq a b = some true)
    (hclear : lctx.clear h = some lctx') :
    unifyEq?.substEq o acycl lctx h subst d a b symm =
      .ok (some { lctx := lctx', subst := subst, numNewEqs := 0 }) := by
  unfold unifyEq?.substEq
  rw [hsub, hdefeq, hclear]

/-! ### C9 -/

/-- A context holding a single non-equality hypothesis `h : A`. -/
def ctx9 : LocalContext :=
  { decls := [ { fvarId := 0, userName := "h", type := tyA, index := 0 } ], fresh := 1 }

/-- C9 (confirmed): a hypothesis whose type is neither a heterogeneous
equality nor a homogeneous equality proposition of arity three makes
`unifyEq?` fail with the fatal "equality expected" error carrying the
hypothesis type; no other route is taken. -/
theorem unifyEq_equality_expected_error (o : Oracle)
    (acycl : LocalContext → Expr → Option Bool) (lctx : LocalContext)
    (h : Nat) (subst : Subst) (c : Option String) (d : LocalDecl)
    (hfind : lctx.find h = some d)
    (hheq : d.type.isHEq = false)
    (heq3 : d.type.isAppOfArity "Eq" 3 = false) :
    unifyEq? o acycl lctx h subst c = .error (.equalityExpected d.type) := by
  unfold unifyEq?
  rw [hfind]
  simp [hheq, heq3]

/-- C9 witness: the theorem applied to the concrete context `ctx9`. -/
theorem unifyEq_equality_expected_error_witness :
    ctx9.find 0 = some { fvarId := 0, userName := "h", type := tyA, index := 0 } ∧
    tyA.isHEq = false ∧ tyA.isAppOfArity "Eq" 3 = false ∧
    unifyEq? baseOracle acyclF ctx9 0 [] none = .error (.equalityExpected tyA) :=
  ⟨rfl, rfl, rfl,
    unifyEq_equality_expected_error baseOracle acyclF ctx9 0 [] none
      { fvarId := 0, userName := "h", type := tyA, index := 0 }
      rfl rfl rfl⟩

/-! ### C2 -/

/-- A context holding `x : A` and the trivial equality `h : Eq A 5 5`. -/
def ctx2 : LocalContext :=
  { decls := [ { fvarId := 0, userName := "x", type := tyA, index := 0 },
               { fvarId := 1, userName := "h", type := mkEqE tyA (.lit 5) (.lit 5),
                 index := 1 } ],
    fresh := 2 }

/-- C2 (confirmed): on a homogeneous equality whose two sides are the
structurally identical term `a` (same type `ty`), `unifyEq?` succeeds,
returns `numNewEqs = 0`, and the result context is the input context with
exactly the equality hypothesis removed — a net shrink of one
declaration.  The hypotheses ask the oracle to behave as the real one
does on identical terms (`instantiateMVars` and `isDefEq` respect
syntactic identity) and the context to be well formed (`a`'s declaration
present when `a` is a variable, a single declaration carrying the
hypothesis id). -/
theorem unifyEq_identical_sides_clears_hypothesis (o : Oracle)
    (acycl : LocalContext → Expr → Option Bool) (lctx : LocalContext)
    (h : Nat) (subst : Subst) (c : Option String) (d : LocalDecl) (ty a : Expr)
    (hfind : lctx.find h = some d)
    (hty : d.type = mkEqE ty a a)
    (hinst : o.instantiateMVars a = a)
    (hdefeq : o.isDefEq a a = some true)
    (hdecl : fvarDeclared lctx a = true)
    (hcount : lctx.decls.countP (fun dd => dd.fvarId == h) = 1) :
    unifyEq? o acycl lctx h subst c =
      .ok (some { lctx := { lctx with decls := lctx.decls.filter (fun dd => dd.fvarId != h) },
                  subst := subst, numNewEqs := 0 }) ∧
    (lctx.decls.filter (fun dd => dd.fvarId != h)).length + 1 = lctx.decls.length := by
  refine ⟨?_, length_filter_ne_of_countP hcount⟩
  have hclear := LocalContext.clear_of_find hfind
  have hheq : d.type.isHEq = false := by rw [hty]; exact mkEqE_isHEq ty a a
  have heq3 : d.type.isAppOfArity "Eq" 3 = true := by rw [hty]; exact mkEqE_isEq3 ty a a
  have hlhs : d.type.appFn.appArg = a := by rw [hty]; rfl
  have hrhs : d.type.appArg = a := by rw [hty]; rfl
  cases a
  case fvar x =>
    obtain ⟨dx, hfx⟩ : ∃ dx, lctx.find x = some dx := by
      simp only [fvarDeclared] at hdecl
      exact Option.isSome_iff_exists.mp hdecl
    rw [unifyEq_route_fvar_fvar o acycl lctx h subst c d dx dx x x hfind hheq heq3
      (by rw [hlhs, hinst]; rfl) (by rw [hrhs, hinst]; rfl) hfx hfx]
    exact substEq_none_defeq_clears o acycl lctx _ h subst d _ _ _
      (substCore_identical lctx h _ subst d ty (.fvar x) hfind hty)
      (by rw [hlhs, hrhs]; exact hdefeq) hclear
  all_goals
    exact unifyEq_route_defeq_clears o acycl lctx _ h subst c d hfind hheq heq3
      (by rw [hlhs, hinst]; rfl) (by rw [hrhs, hinst]; rfl)
      (by rw [hlhs, hrhs, hinst]; exact hdefeq) hclear

/-- C2 witness: the theorem applied to `ctx2` with `h : Eq A 5 5`. -/
theorem unifyEq_identical_sides_clears_hypothesis_witness :
    ctx2.find 1 = some { fvarId := 1, userName := "h",
                         type := mkEqE tyA (.lit 5) (.lit 5), index := 1 } ∧
    baseOracle.isDefEq (.lit 5) (.lit 5) = some true ∧
    (unifyEq? baseOracle acyclF ctx2 1 [] none =
      .ok (some { lctx := { ctx2 with decls := ctx2.decls.filter (fun dd => dd.fvarId != 1) },
                  subst := [], numNewEqs := 0 }) ∧
     (ctx2.decls.filter (fun dd => dd.fvarId != 1)).length + 1 = ctx2.decls.length) :=
  ⟨rfl, rfl,
    unifyEq_identical_sides_clears_hypothesis baseOracle acyclF ctx2 1 [] none
      { fvarId := 1, userName := "h", type := mkEqE tyA (.lit 5) (.lit 5), index := 1 }
      tyA (.lit 5) rfl rfl rfl rfl rfl rfl⟩

/-! ### C5 -/

/-- A context holding `x : A`, `y : A` and `h : Eq A x y`. -/
def ctx5 : LocalContext :=
  { decls := [ { fvarId := 0, userName := "x", type := tyA, index := 0 },
               { fvarId := 1, userName := "y", type := tyA, index := 1 },
               { fvarId := 2, userName := "h", type := mkEqE tyA (.fvar 0) (.fvar 1),
                 index := 2 } ],
    fresh := 3 }

/-- A context holding `x : A` and the cyclic equality `h : Eq A x (f x)`:
the substitution attempt fails on the occurs-check. -/
def ctx6 : LocalContext :=
  { decls := [ { fvarId := 0, userName := "x", type := tyA, index := 0 },
               { fvarId := 1, userName := "h",
                 type := mkEqE tyA (.fvar 0) (.app (.const "f") (.fvar 0)), index := 1 } ],
    fresh := 2 }

/-- A context holding only the unsolvable equality `h : Eq A 3 4`. -/
def ctx6b : LocalContext :=
  { decls := [ { fvarId := 0, userName := "h", type := mkEqE tyA (.lit 3) (.lit 4),
                 index := 0 } ],
    fresh := 1 }

/-- C6 (confirmed): when the speculative substitution fails and the sides
are not definitionally equal — and neither injection nor the acyclicity
callback applies — `unifyEq?` raises the fatal "failed to solve equation"
error carrying the hypothesis type; the error carries no modified
context, so the caller's context is untouched.  The first conjunct covers
the substituter's throw site (variable-headed equation, e.g. after a
failed occurs-check); the second covers the injector's fallback throw
site (no side variable-headed, not constructor applications, weak-head
reduction stuck), which appends the case name to the message. -/
theorem unifyEq_unsolvable_equation_error :
    (∀ (o : Oracle) (acycl : LocalContext → Expr → Option Bool) (lctx : LocalContext)
       (h : Nat) (subst : Subst) (c : Option String) (d : LocalDecl) (ty a b : Expr)
       (x : Nat),
      lctx.find h = some d →
      d.type = mkEqE ty a b →
      o.instantiateMVars a = a →
      o.instantiateMVars b = b →
      a.fvarId? = some x →
      b.fvarId? = none →
      substCore lctx h false subst = none →
      o.isDefEq a b = some false →
      acycl lctx (.fvar h) = some false →
      unifyEq? o acycl lctx h subst c = .error (.failedToSolve d.type none)) ∧
    (∀ (o : Oracle) (acycl : LocalContext → Expr → Option Bool) (lctx : LocalContext)
       (h : Nat) (subst : Subst) (c : Option String) (d : LocalDecl) (ty a b : Expr),
      lctx.find h = some d →
      d.type = mkEqE ty a b →
      o.instantiateMVars a = a →
      o.instantiateMVars b = b →
      a.fvarId? = none →
      b.fvarId? = none →
      o.isDefEq a b = some false →
      (o.isConstructorApp a && o.isConstructorApp b) = false →
      o.whnf a = some a →
      o.whnf b = some b →
      unifyEq? o acycl lctx h subst c = .error (.failedToSolve d.type c)) := by
  constructor
  · intro o acycl lctx h subst c d ty a b x hfind hty hia hib hax hbn hsub hdefeq hacycl
    have hheq : d.type.isHEq = false := by rw [hty]; exact mkEqE_isHEq ..
    have heq3 : d.type.isAppOfArity "Eq" 3 = true := by rw [hty]; exact mkEqE_isEq3 ..
    have hlhs : d.type.appFn.appArg = a := by rw [hty]; rfl
    have hrhs : d.type.appArg = b := by rw [hty]; rfl
    rw [unifyEq_route_fvar_left o acycl lctx h subst c d x hfind hheq heq3
      (by rw [hlhs, hia]; exact hax) (by rw [hrhs, hib]; exact hbn)]
    rw [hlhs, hrhs]
    unfold unifyEq?.substEq
    rw [hsub, hdefeq, hacycl]
  · intro o acycl lctx h subst c d ty a b hfind hty hia hib han hbn hdefeq hctor hwa hwb
    have hheq : d.type.isHEq = false := by rw [hty]; exact mkEqE_isHEq ..
    have heq3 : d.type.isAppOfArity "Eq" 3 = true := by rw [hty]; exact mkEqE_isEq3 ..
    have hlhs : d.type.appFn.appArg = a := by rw [hty]; rfl
    have hrhs : d.type.appArg = b := by rw [hty]; rfl
    rw [unifyEq_route_injection o acycl lctx h subst c d hfind hheq heq3
      (by rw [hlhs, hia]; exact han) (by rw [hrhs, hib]; exact hbn)
      (by rw [hlhs, hrhs, hia, hib]; exact hdefeq)]
    rw [hlhs, hrhs, hia, hib]
    unfold unifyEq?.injection
    rw [hctor]
    simp only [Bool.false_eq_true, if_false, hwa, hwb, beq_self_eq_true, Bool.and_self,
      if_true]

/-- C6 witness: the substituter site on `ctx6` (`h : Eq A x (f x)`, where
the occurs-check defeats substitution) and the injector fallback site on
`ctx6b` (`h : Eq A 3 4`, the spec's own example, with `isDefEq 3 4 =
false`). -/
theorem unifyEq_unsolvable_equation_error_witness :
    baseOracle.isDefEq (.fvar 0) (.app (.const "f") (.fvar 0)) = some false ∧
    substCore ctx6 1 false [] = none ∧
    unifyEq? baseOracle acyclF ctx6 1 [] none =
      .error (.failedToSolve (mkEqE tyA (.fvar 0) (.app (.const "f") (.fvar 0))) none) ∧
    baseOracle.isDefEq (.lit 3) (.lit 4) = some false ∧
    unifyEq? baseOracle acyclF ctx6b 0 [] (some "cons") =
      .error (.failedToSolve (mkEqE tyA (.lit 3) (.lit 4)) (some "cons")) :=
  ⟨rfl, rfl,
    unifyEq_unsolvable_equation_error.1 baseOracle acyclF ctx6 1 [] none
      { fvarId := 1, userName := "h",
        type := mkEqE tyA (.fvar 0) (.app (.const "f") (.fvar 0)), index := 1 }
      tyA (.fvar 0) (.app (.const "f") (.fvar 0)) 0
      rfl rfl rfl rfl rfl rfl rfl rfl rfl,
   rfl,
    unifyEq_unsolvable_equation_error.2 baseOracle acyclF ctx6b 0 [] (some "cons")
      { fvarId := 0, userName := "h", type := mkEqE tyA (.lit 3) (.lit 4), index := 0 }
      tyA (.lit 3) (.lit 4)
      rfl rfl rfl rfl rfl rfl rfl rfl rfl rfl⟩

/-! ### C3 and C4: the heterogeneous-equality branch -/

/-- A context holding `x : A`, `y : A` and `h : HEq A x A y` (the two
types are syntactically equal, hence defeq). -/
def ctx3 : LocalContext :=
  { decls := [ { fvarId := 0, userName := "x", type := tyA, index := 0 },
               { fvarId := 1, userName := "y", type := tyA, index := 1 },
               { fvarId := 2, userName := "h", type := mkHEqE tyA (.fvar 0) tyA (.fvar 1),
                 index := 2 } ],
    fresh := 3 }

/-- Oracle for the heterogeneous fixtures: the conversion succeeds
(wrapping the proof in `eq_of_heq`) and the inferred, reduced type of the
converted proof is the homogeneous `Eq A x y`. -/
def o3 : Oracle :=
  { baseOracle with
    mkEqOfHEq := fun e => some (.app (.const "eq_of_heq") e)
    inferType := fun _ => some (mkEqE tyA (.fvar 0) (.fvar 1)) }

/-- The context produced by the heterogeneous conversion on `ctx3`: the
hypothesis is now the homogeneous `Eq A x y` under the original name, as
a fresh declaration. -/
def ctx3' : LocalContext :=
  { decls := [ { fvarId := 0, userName := "x", type := tyA, index := 0 },
               { fvarId := 1, userName := "y", type := tyA, index := 1 },
               { fvarId := 3, userName := "h", type := mkEqE tyA (.fvar 0) (.fvar 1),
                 index := 3 } ],
    fresh := 4 }

/-- C3 counterexample: on the heterogeneous `h : HEq A x A y` with defeq
types, `unifyEq?` runs the converter and returns at once with
`numNewEqs = 1`, leaving the freshly produced homogeneous `Eq A x y` in
the context unsimplified — the later-declared variable `y` survives.
A second, separate invocation on the produced hypothesis does simplify it
(substituting `y` away with `numNewEqs = 0`), showing that the claimed
in-invocation re-classification and continuation does not happen. -/
theorem unifyEq_heq_no_redispatch_counterexample :
    unifyEq? o3 acyclF ctx3 2 [] none =
      .ok (some { lctx := ctx3', subst := [], numNewEqs := 1 }) ∧
    (∃ dd ∈ ctx3'.decls, dd.fvarId = 1) ∧
    (∃ dd ∈ ctx3'.decls, dd.type = mkEqE tyA (.fvar 0) (.fvar 1)) ∧
    unifyEq? o3 acyclF ctx3' 3 [] none =
      .ok (some { lctx := { decls := [ { fvarId := 0, userName := "x", type := tyA,
                                         index := 0 } ], fresh := 4 },
                  subst := [(1, .fvar 0)], numNewEqs := 0 }) := by
  refine ⟨rfl, by decide, by decide, rfl⟩

/-- C3 (corrected): on a heterogeneous hypothesis the dispatcher runs the
converter and, when it succeeds, returns immediately with the converted
context and `numNewEqs = 1`; re-classification and further simplification
of the resulting homogeneous hypothesis happen only in a later invocation
by the caller, never inside the same invocation. -/
theorem unifyEq_heq_converts_and_defers (o : Oracle)
    (acycl : LocalContext → Expr → Option Bool) (lctx lctx' : LocalContext)
    (h : Nat) (subst : Subst) (c : Option String) (d : LocalDecl)
    (hfind : lctx.find h = some d)
    (hheq : d.type.isHEq = true)
    (hconv : heqToEq' o lctx d = .ok lctx') :
    unifyEq? o acycl lctx h subst c =
      .ok (some { lctx := lctx', subst := subst, numNewEqs := 1 }) := by
  rw [unifyEq_route_heq o acycl lctx h subst c d hfind hheq, hconv]
  rfl

/-- C3 witness: the amended theorem applied to `ctx3`. -/
theorem unifyEq_heq_converts_and_defers_witness :
    ctx3.find 2 = some { fvarId := 2, userName := "h",
                         type := mkHEqE tyA (.fvar 0) tyA (.fvar 1), index := 2 } ∧
    heqToEq' o3 ctx3 { fvarId := 2, userName := "h",
                       type := mkHEqE tyA (.fvar 0) tyA (.fvar 1), index := 2 } = .ok ctx3' ∧
    unifyEq? o3 acyclF ctx3 2 [] none =
      .ok (some { lctx := ctx3', subst := [], numNewEqs := 1 }) :=
  ⟨rfl, rfl,
    unifyEq_heq_converts_and_defers o3 acyclF ctx3 ctx3' 2 [] none
      { fvarId := 2, userName := "h", type := mkHEqE tyA (.fvar 0) tyA (.fvar 1), index := 2 }
      rfl rfl rfl⟩

/-- C4 (confirmed): on a heterogeneous hypothesis whose conversion
succeeds (the oracle builds the homogeneous proof, infers its type, and
weak-head-reduces it to a homogeneous equality `ty1`), `unifyEq?` asserts
`ty1` under the original user-facing name and clears the original
hypothesis: the net context size is unchanged, the result context
contains a homogeneous hypothesis under the original name, and no
declaration with the original hypothesis id remains. -/
theorem unifyEq_heq_conversion_preserves_size (o : Oracle)
    (acycl : LocalContext → Expr → Option Bool) (lctx : LocalContext)
    (h : Nat) (subst : Subst) (c : Option String) (d : LocalDecl)
    (prf ty0 ty1 : Expr)
    (hfind : lctx.find h = some d)
    (hheq : d.type.isHEq = true)
    (hmk : o.mkEqOfHEq (.fvar h) = some prf)
    (hinf : o.inferType prf = some ty0)
    (hwh : o.whnf ty0 = some ty1)
    (hhom : ty1.isAppOfArity "Eq" 3 = true)
    (hfresh : ∀ dd ∈ lctx.decls, dd.fvarId ≠ lctx.fresh)
    (hcount : lctx.decls.countP (fun dd => dd.fvarId == h) = 1) :
    ∃ lctx' : LocalContext,
      unifyEq? o acycl lctx h subst c =
        .ok (some { lctx := lctx', subst := subst, numNewEqs := 1 }) ∧
      lctx'.decls.length = lctx.decls.length ∧
      (∃ nd ∈ lctx'.decls, nd.userName = d.userName ∧ nd.type = ty1 ∧
        nd.type.isAppOfArity "Eq" 3 = true) ∧
      (∀ nd ∈ lctx'.decls, nd.fvarId ≠ h) := by
  have hid := LocalContext.find_fvarId hfind
  have hmem := LocalContext.mem_of_find hfind
  have hfh : lctx.fresh ≠ h := by
    intro hcon
    exact hfresh d hmem (hid.trans hcon.symm)
  have hmem2 : d ∈ (lctx.assertHyp d.userName ty1 prf).1.decls :=
    List.mem_append_left _ hmem
  have hclear := LocalContext.clear_of_mem hmem2 hid
  have hconv : heqToEq' o lctx d =
      .ok { decls := ((lctx.decls ++
              [({ fvarId := lctx.fresh, userName := d.userName, type := ty1,
                  index := lctx.fresh } : LocalDecl)]).filter (fun dd => dd.fvarId != h)),
            fresh := lctx.fresh + 1 } := by
    simp only [heqToEq', hid, hmk, hinf, hwh]
    rw [hclear]
    rfl
  have hsplit : ((lctx.decls ++
        [({ fvarId := lctx.fresh, userName := d.userName, type := ty1,
            index := lctx.fresh } : LocalDecl)]).filter (fun dd => dd.fvarId != h)) =
      lctx.decls.filter (fun dd => dd.fvarId != h) ++
        [({ fvarId := lctx.fresh, userName := d.userName, type := ty1,
            index := lctx.fresh } : LocalDecl)] := by
    rw [List.filter_append]
    congr 1
    simp only [List.filter_eq_self, List.mem_singleton]
    intro a ha
    rw [ha]
    simpa using hfh
  rw [unifyEq_route_heq o acycl lctx h subst c d hfind hheq, hconv]
  refine ⟨_, rfl, ?_, ?_, ?_⟩
  · simp only [hsplit, List.length_append, List.length_singleton]
    have := length_filter_ne_of_countP hcount
    omega
  · refine ⟨{ fvarId := lctx.fresh, userName := d.userName, type := ty1,
              index := lctx.fresh }, ?_, rfl, rfl, hhom⟩
    rw [hsplit]
    exact List.mem_append_right _ (List.mem_singleton.mpr rfl)
  · intro nd hnd
    rw [hsplit] at hnd
    rcases List.mem_append.mp hnd with hin | hin
    · have := (List.mem_filter.mp hin).2
      simpa using this
    · rw [List.mem_singleton.mp hin]
      exact hfh
/-- C4 witness: the theorem applied to `ctx3` with the oracle `o3`. -/
theorem unifyEq_heq_conversion_preserves_size_witness :
    o3.mkEqOfHEq (.fvar 2) = some (.app (.const "eq_of_heq") (.fvar 2)) ∧
    (mkEqE tyA (.fvar 0) (.fvar 1)).isAppOfArity "Eq" 3 = true ∧
    (∃ lctx' : LocalContext,
      unifyEq? o3 acyclF ctx3 2 [] none =
        .ok (some { lctx := lctx', subst := [], numNewEqs := 1 }) ∧
      lctx'.decls.length = ctx3.decls.length ∧
      (∃ nd ∈ lctx'.decls, nd.userName = "h" ∧
        nd.type = mkEqE tyA (.fvar 0) (.fvar 1) ∧
        nd.type.isAppOfArity "Eq" 3 = true) ∧
      (∀ nd ∈ lctx'.decls, nd.fvarId ≠ 2)) :=
  ⟨rfl, rfl,
    unifyEq_heq_conversion_preserves_size o3 acyclF ctx3 2 [] none
      { fvarId := 2, userName := "h", type := mkHEqE tyA (.fvar 0) tyA (.fvar 1), index := 2 }
      (.app (.const "eq_of_heq") (.fvar 2)) (mkEqE tyA (.fvar 0) (.fvar 1))
      (mkEqE tyA (.fvar 0) (.fvar 1))
      rfl rfl rfl rfl rfl rfl (by decide) rfl⟩

/-! ### C7 -/

/-- Constructor-application shape used by the counterexample oracles: an
application headed by a constant. -/
def isConstHeadApp : Expr → Bool
  | .app (.const _) _ => true
  | _ => false

/-- The context the injection primitive produces on the C8 fixture: the
constructor equality is replaced by one field equality `h : Eq A x y`. -/
def ctx8inj : LocalContext :=
  { decls := [ { fvarId := 0, userName := "x", type := tyA, index := 0 },
               { fvarId := 1, userName := "y", type := tyA, index := 1 },
               { fvarId := 3, userName := "h", type := mkEqE tyA (.fvar 0) (.fvar 1),
                 index := 3 } ],
    fresh := 4 }

/-- Oracle for the C8 fixture: constant-headed applications count as
constructor applications; `injectionCore` on the fixture hypothesis
produces the field-equality context with one new equation. -/
def o8 : Oracle :=
  { baseOracle with
    isConstructorApp := isConstHeadApp
    injectionCore := fun _ i => if i == 2 then some (some (ctx8inj, 1)) else none }

/-- A context holding `x : A`, `y : A` and the same-constructor equality
`h : Eq A (C x) (C y)`. -/
def ctx8 : LocalContext :=
  { decls := [ { fvarId := 0, userName := "x", type := tyA, index := 0 },
               { fvarId := 1, userName := "y", type := tyA, index := 1 },
               { fvarId := 2, userName := "h",
                 type := mkEqE tyA (.app (.const "C") (.fvar 0))
                   (.app (.const "C") (.fvar 1)), index := 2 } ],
    fresh := 3 }

/-- C8 counterexample: on `h : C x = C y` the injection primitive
produces the single field equality `Eq A x y` and `unifyEq?` returns
`numNewEqs = 1` with that hypothesis left in the context untouched —
although the dispatcher would fully resolve it (a separate second
invocation substitutes it away with `numNewEqs = 0`).  So the produced
field equalities are not passed back into the dispatcher within the same
invocation, and `numNewEqs` is the primitive's count of produced
equalities, not the count of those the dispatcher failed to resolve. -/
theorem unifyEq_injection_no_recursion_counterexample :
    unifyEq? o8 acyclF ctx8 2 [] none =
      .ok (some { lctx := ctx8inj, subst := [], numNewEqs := 1 }) ∧
    (∃ dd ∈ ctx8inj.decls, dd.type = mkEqE tyA (.fvar 0) (.fvar 1)) ∧
    unifyEq? o8 acyclF ctx8inj 3 [] none =
      .ok (some { lctx := { decls := [ { fvarId := 0, userName := "x", type := tyA,
                                         index := 0 } ], fresh := 4 },
                  subst := [(1, .fvar 0)], numNewEqs := 0 }) :=
  ⟨rfl, by decide, rfl⟩

/-- C8 (corrected): when both (instantiated) sides are constructor
applications the injector delegates to the external injection primitive
and, on a subgoal, returns that subgoal's context together with the
primitive's equation count as `numNewEqs`, without recursing into the
dispatcher; resolving the produced field equalities is left to later
invocations by the caller. -/
theorem unifyEq_injection_defers_field_equalities (o : Oracle)
    (acycl : LocalContext → Expr → Option Bool) (lctx l' : LocalContext)
    (h : Nat) (subst : Subst) (c : Option String) (d : LocalDecl) (n : Nat)
    (hfind : lctx.find h = some d)
    (hheq : d.type.isHEq = false)
    (heq3 : d.type.isAppOfArity "Eq" 3 = true)
    (hA : (o.instantiateMVars d.type.appFn.appArg).fvarId? = none)
    (hB : (o.instantiateMVars d.type.appArg).fvarId? = none)
    (hdefeq : o.isDefEq (o.instantiateMVars d.type.appFn.appArg)
        (o.instantiateMVars d.type.appArg) = some false)
    (hca : o.isConstructorApp (o.instantiateMVars d.type.appFn.appArg) = true)
    (hcb : o.isConstructorApp (o.instantiateMVars d.type.appArg) = true)
    (hinj : o.injectionCore lctx h = some (some (l', n))) :
    unifyEq? o acycl lctx h subst c =
      .ok (some { lctx := l', subst := subst, numNewEqs := n }) := by
  rw [unifyEq_route_injection o acycl lctx h subst c d hfind hheq heq3 hA hB hdefeq]
  unfold unifyEq?.injection
  simp only [hca, hcb, Bool.and_self, if_true, hinj]

/-- C8 witness: the amended theorem applied to the C8 fixture. -/
theorem unifyEq_injection_defers_field_equalities_witness :
    o8.injectionCore ctx8 2 = some (some (ctx8inj, 1)) ∧
    o8.isConstructorApp (.app (.const "C") (.fvar 0)) = true ∧
    unifyEq? o8 acyclF ctx8 2 [] none =
      .ok (some { lctx := ctx8inj, subst := [], numNewEqs := 1 }) :=
  ⟨rfl, rfl,
    unifyEq_injection_defers_field_equalities o8 acyclF ctx8 ctx8inj 2 [] none
      { fvarId := 2, userName := "h",
        type := mkEqE tyA (.app (.const "C") (.fvar 0)) (.app (.const "C") (.fvar 1)),
        index := 2 }
      1 rfl rfl rfl rfl rfl rfl rfl rfl rfl⟩

/-! ### C10 -/

/-- One-step reducer for the C10 fixture: `g t` unfolds to `t`. -/
def red10 (e : Expr) : Expr :=
  match e with
  | .app (.const "g") t => t
  | t => t

/-- Oracle for the C10 fixture: weak-head normalization unfolds `g`,
`mkEq` rebuilds the equality at type `A`; nothing is a constructor
application and definitional equality is structural. -/
def o10 : Oracle :=
  { baseOracle with
    whnf := fun e => some (red10 e)
    mkEq := fun a b => some (mkEqE tyA a b) }

/-- A context holding only `h : Eq A (g 3) 4`, whose left side reduces. -/
def ctx10 : LocalContext :=
  { decls := [ { fvarId := 0, userName := "h",
                 type := mkEqE tyA (.app (.const "g") (.lit 3)) (.lit 4), index := 0 } ],
    fresh := 1 }

/-- C10 (confirmed): in the injector's fallback (no side a variable, not
definitionally equal, not both constructor applications), when weak-head
normalization changes at least one side `unifyEq?` does not fail: it
asserts the equality of the two reduced sides (built by `mkEq`) under the
original hypothesis's user-facing name — the listing proves it by the
original hypothesis variable — clears the original hypothesis, and
returns `numNewEqs = 1`, deferring the reduced equation to a later
invocation. -/
theorem unifyEq_whnf_progress_reasserts (o : Oracle)
    (acycl : LocalContext → Expr → Option Bool) (lctx : LocalContext)
    (h : Nat) (subst : Subst) (c : Option String) (d : LocalDecl)
    (ty a b a' b' nty : Expr)
    (hfind : lctx.find h = some d)
    (hty : d.type = mkEqE ty a b)
    (hia : o.instantiateMVars a = a)
    (hib : o.instantiateMVars b = b)
    (han : a.fvarId? = none)
    (hbn : b.fvarId? = none)
    (hdefeq : o.isDefEq a b = some false)
    (hctor : (o.isConstructorApp a && o.isConstructorApp b) = false)
    (hwa : o.whnf a = some a')
    (hwb : o.whnf b = some b')
    (hch : (a' == a && b' == b) = false)
    (hmk : o.mkEq a' b' = some nty)
    (hfresh : ∀ dd ∈ lctx.decls, dd.fvarId ≠ lctx.fresh) :
    unifyEq? o acycl lctx h subst c =
      .ok (some ⟨⟨lctx.decls.filter (fun dd => dd.fvarId != h) ++
        [⟨lctx.fresh, d.userName, nty, lctx.fresh⟩], lctx.fresh + 1⟩, subst, 1⟩) := by
  have hid := LocalContext.find_fvarId hfind
  have hmem := LocalContext.mem_of_find hfind
  have hfh : lctx.fresh ≠ h := by
    intro hcon
    exact hfresh d hmem (hid.trans hcon.symm)
  have hheq : d.type.isHEq = false := by rw [hty]; exact mkEqE_isHEq ..
  have heq3 : d.type.isAppOfArity "Eq" 3 = true := by rw [hty]; exact mkEqE_isEq3 ..
  have hlhs : d.type.appFn.appArg = a := by rw [hty]; rfl
  have hrhs : d.type.appArg = b := by rw [hty]; rfl
  have hmem2 : d ∈ (lctx.assertHyp d.userName nty (.fvar h)).1.decls :=
    List.mem_append_left _ hmem
  have hclear := LocalContext.clear_of_mem hmem2 hid
  have hsplit : (((lctx.assertHyp d.userName nty (.fvar h)).1.decls).filter
        (fun dd => dd.fvarId != h)) =
      lctx.decls.filter (fun dd => dd.fvarId != h) ++
        [(⟨lctx.fresh, d.userName, nty, lctx.fresh⟩ : LocalDecl)] := by
    show ((lctx.decls ++ [(⟨lctx.fresh, d.userName, nty, lctx.fresh⟩ : LocalDecl)]).filter
      (fun dd => dd.fvarId != h)) = _
    rw [List.filter_append]
    congr 1
    simp only [List.filter_eq_self, List.mem_singleton]
    intro x hx
    rw [hx]
    simpa using hfh
  rw [unifyEq_route_injection o acycl lctx h subst c d hfind hheq heq3
    (by rw [hlhs, hia]; exact han) (by rw [hrhs, hib]; exact hbn)
    (by rw [hlhs, hrhs, hia, hib]; exact hdefeq)]
  rw [hlhs, hrhs, hia, hib]
  unfold unifyEq?.injection
  rw [hctor]
  simp only [Bool.false_eq_true, if_false, hwa, hwb, hch, hmk]
  rw [hclear]
  simp only [hsplit]
  rfl

/-- C10 witness: the theorem applied to `ctx10` (`h : Eq A (g 3) 4`,
whose left side weak-head-reduces to `3`). -/
theorem unifyEq_whnf_progress_reasserts_witness :
    o10.whnf (.app (.const "g") (.lit 3)) = some (.lit 3) ∧
    o10.isDefEq (.app (.const "g") (.lit 3)) (.lit 4) = some false ∧
    unifyEq? o10 acyclF ctx10 0 [] none =
      .ok (some ⟨⟨ctx10.decls.filter (fun dd => dd.fvarId != 0) ++
        [⟨1, "h", mkEqE tyA (.lit 3) (.lit 4), 1⟩], 2⟩, [], 1⟩) :=
  ⟨rfl, rfl,
    unifyEq_whnf_progress_reasserts o10 acyclF ctx10 0 [] none
      { fvarId := 0, userName := "h",
        type := mkEqE tyA (.app (.const "g") (.lit 3)) (.lit 4), index := 0 }
      tyA (.app (.const "g") (.lit 3)) (.lit 4) (.lit 3) (.lit 4)
      (mkEqE tyA (.lit 3) (.lit 4))
      rfl rfl rfl rfl rfl rfl rfl rfl rfl rfl
      rfl rfl (by decide)⟩

/-! ### C1 -/

theorem substEq_ne_ok_none (o : Oracle) (acycl : LocalContext → Expr → Option Bool)
    (lctx : LocalContext) (h : Nat) (subst : Subst) (d : LocalDecl) (a b : Expr)
    (symm : Bool)
    (hacycl : ∀ l e, acycl l e ≠ some true) :
    unifyEq?.substEq o acycl lctx h subst d a b symm ≠ .ok none := by
  unfold unifyEq?.substEq
  cases hsc : substCore lctx h symm subst with
  | some p => cases p; simp
  | none =>
    cases hde : o.isDefEq a b with
    | none => simp
    | some bb =>
      cases bb with
      | false =>
        cases hac : acycl lctx (.fvar h) with
        | none => simp
        | some bb2 =>
          cases bb2 with
          | false => simp
          | true => exact absurd hac (hacycl _ _)
      | true =>
        cases hcl : lctx.clear h <;> simp

theorem injection_ne_ok_none (o : Oracle) (lctx : LocalContext) (h : Nat)
    (subst : Subst) (c : Option String) (d : LocalDecl) (a b : Expr)
    (hinj : ∀ l i, o.injectionCore l i ≠ some none) :
    unifyEq?.injection o lctx h subst c d a b ≠ .ok none := by
  unfold unifyEq?.injection
  by_cases hc : (o.isConstructorApp a && o.isConstructorApp b) = true
  · rw [if_pos hc]
    cases hic : o.injectionCore lctx h with
    | none => simp
    | some oo =>
      cases oo with
      | none => exact absurd hic (hinj _ _)
      | some p => cases p; simp
  · rw [if_neg hc]
    cases hwa : o.whnf a with
    | none => simp
    | some a1 =>
      cases hwb : o.whnf b with
      | none => simp
      | some b1 =>
        dsimp only
        by_cases hch : (a1 == a && b1 == b) = true
        · rw [if_pos hch]; simp
        · rw [if_neg hch]
          cases hmk : o.mkEq a1 b1 with
          | none => simp
          | some ty =>
            cases hcl : (lctx.assertHyp d.userName ty (.fvar h)).1.clear h <;> simp [hcl]

/-- C1 (corrected): when the caller-provided acyclicity callback never
fires and the injection primitive never reports the goal solved, no
invocation of `unifyEq?` can end in the goal-closed outcome: every
non-error run delivers a `UnifyEqResult` (context plus `numNewEqs`).
Without those hypotheses the claim is false — see the counterexample —
because the listing has two non-error paths that return `none` instead of
a result: the injection-solved path and the acyclicity path. -/
theorem unifyEq_ok_none_only_from_acyclic_or_injection (o : Oracle)
    (acycl : LocalContext → Expr → Option Bool) (lctx : LocalContext)
    (h : Nat) (subst : Subst) (c : Option String)
    (hacycl : ∀ l e, acycl l e ≠ some true)
    (hinj : ∀ l i, o.injectionCore l i ≠ some none) :
    unifyEq? o acycl lctx h subst c ≠ .ok none := by
  unfold unifyEq?
  cases hf : lctx.find h with
  | none => simp
  | some d =>
    dsimp only
    by_cases hh : d.type.isHEq = true
    · rw [if_pos hh]
      cases hc : heqToEq' o lctx d <;> simp
    · rw [if_neg hh]
      by_cases he : d.type.isAppOfArity "Eq" 3 = true
      · rw [if_pos he]
        cases hA : (o.instantiateMVars d.type.appFn.appArg).fvarId? with
        | some x =>
          cases hB : (o.instantiateMVars d.type.appArg).fvarId? with
          | some y =>
            cases hx : lctx.find x with
            | none => simp [hx]
            | some dx =>
              cases hy : lctx.find y with
              | none => simp [hx, hy]
              | some dy =>
                simp only [hx, hy]
                exact substEq_ne_ok_none o acycl lctx h subst d _ _ _ hacycl
          | none => exact substEq_ne_ok_none o acycl lctx h subst d _ _ _ hacycl
        | none =>
          cases hB : (o.instantiateMVars d.type.appArg).fvarId? with
          | some y => exact substEq_ne_ok_none o acycl lctx h subst d _ _ _ hacycl
          | none =>
            cases hd : o.isDefEq (o.instantiateMVars d.type.appFn.appArg)
                (o.instantiateMVars d.type.appArg) with
            | none => simp [hd]
            | some bb =>
              cases bb with
              | false =>
                simp only [hd]
                exact injection_ne_ok_none o lctx h subst c d _ _ hinj
              | true =>
                simp only [hd]
                cases hcl : lctx.clear h <;> simp [hcl]
      · rw [if_neg he]
        simp

/-- C1 witness: the amended theorem applied to `ctx5` with the default
callback and an injection primitive that never solves the goal. -/
theorem unifyEq_ok_none_only_from_acyclic_or_injection_witness :
    (∀ l e, acyclF l e ≠ some true) ∧
    (∀ l i, baseOracle.injectionCore l i ≠ some none) ∧
    unifyEq? baseOracle acyclF ctx5 2 [] none ≠ .ok none :=
  ⟨fun l e hcon => by simp [acyclF] at hcon,
   fun l i hcon => by simp [baseOracle] at hcon,
   unifyEq_ok_none_only_from_acyclic_or_injection baseOracle acyclF ctx5 2 [] none
     (fun l e hcon => by simp [acyclF] at hcon)
     (fun l i hcon => by simp [baseOracle] at hcon)⟩

/-- Oracle for the C1 counterexample: both sides are constructor
applications and the injection primitive closes the goal (e.g. two
distinct constructors). -/
def o1c : Oracle :=
  { baseOracle with
    isConstructorApp := isConstHeadApp
    injectionCore := fun _ _ => some none }

/-- A context holding the distinct-constructor equality
`h : Eq A (C 0) (D 1)`. -/
def ctx1c : LocalContext :=
  { decls := [ { fvarId := 0, userName := "h",
                 type := mkEqE tyA (.app (.const "C") (.lit 0)) (.app (.const "D") (.lit 1)),
                 index := 0 } ],
    fresh := 1 }

/-- C1 counterexample: two reachable non-error runs of `unifyEq?` that do
not deliver a `UnifyEqResult`: the injection primitive solving the goal,
and the acyclicity callback firing. -/
theorem unifyEq_returns_none_reachable :
    unifyEq? o1c acyclF ctx1c 0 [] none = .ok none ∧
    unifyEq? baseOracle (fun _ _ => some true) ctx6 1 [] none = .ok none :=
  ⟨rfl, rfl⟩

end UnifyEqSpec
